import Mathlib

/-!
Verification of the TerminJetzt Telegram bot menu core (src/bot/main.py).

The Python source is shallowly embedded: the menu tree (`MenuItem`), the
path resolution (`MenuItem.find`, `MenuLoader.find_by_path`), the
breadcrumb rendering, the keyboard factory (`KeyboardFactory.build`), the
callback orchestration (`on_callback`, `_show_menu`, `on_start`,
`on_fallback`, `_search`) and the YAML loader (`MenuLoader._load`,
`MenuLoader._parse_item`).  Python string primitives used by the source
(`split`, `join`, `strip`, `lower`, `lstrip`, the `in` substring test)
are embedded as structurally recursive character-list functions so that
all definitions evaluate by kernel reduction.
-/

/-! ### Python string primitives -/

/-- Python `str.split(sep)` for a single-character separator, on the
character list.  `splitDelim c []` is `[[]]`, matching `"".split(":") == [""]`. -/
def splitDelim (c : Char) : List Char → List (List Char)
  | [] => [[]]
  | x :: xs =>
    match splitDelim c xs with
    | [] => [[]]
    | g :: gs => if x = c then [] :: g :: gs else (x :: g) :: gs

/-- `data.split(":")` from `on_callback` (src/bot/main.py line 181). -/
def pySplitColon (s : String) : List String :=
  (splitDelim ':' s.toList).map fun l => String.mk l

/-- Python `sep.join(parts)` (used with `":"` and `" / "` in the source). -/
def pyJoin (sep : String) : List String → String
  | [] => ""
  | [s] => s
  | s :: rest => s ++ sep ++ pyJoin sep rest

/-- Python `str.strip()`: drop whitespace from both ends. -/
def pyStrip (s : String) : String :=
  String.mk (((s.toList.dropWhile Char.isWhitespace).reverse.dropWhile
    Char.isWhitespace).reverse)

/-- Python `str.lower()`, on the ASCII range (the case mapping used by the
menu texts handled in the claims). -/
def pyLower (s : String) : String :=
  String.mk (s.toList.map Char.toLower)

/-- Whether `nd` is a prefix of `hay` (character lists). -/
def isPrefOfChars : List Char → List Char → Bool
  | [], _ => true
  | _ :: _, [] => false
  | a :: as, b :: bs => a == b && isPrefOfChars as bs

/-- Whether `nd` occurs as a contiguous sublist of `hay`. -/
def isSubChars (nd : List Char) : List Char → Bool
  | [] => nd.isEmpty
  | h :: t => isPrefOfChars nd (h :: t) || isSubChars nd t

/-- Python `needle in hay` on strings: substring containment. -/
def pyIn (needle hay : String) : Bool :=
  isSubChars needle.toList hay.toList

/-- Python `str.split()` with no argument: split on whitespace runs,
dropping empty pieces (used by `_search`, src/bot/main.py line 225). -/
def pySplitWs (s : String) : List String :=
  ((splitDelim ' ' s.toList).filter (fun l => !l.isEmpty)).map fun l => String.mk l

/-! ### Domain model: `MenuItem` (src/bot/main.py lines 31-63) -/

/-- The immutable menu node: `id`, `text`, optional `answer`, ordered
`children` (the `MenuItem` dataclass). -/
inductive MenuItem where
  | mk (id : String) (text : String) (answer : Option String)
       (children : List MenuItem)

def MenuItem.id : MenuItem → String
  | .mk i _ _ _ => i

def MenuItem.text : MenuItem → String
  | .mk _ t _ _ => t

def MenuItem.answer : MenuItem → Option String
  | .mk _ _ a _ => a

def MenuItem.children : MenuItem → List MenuItem
  | .mk _ _ _ cs => cs

/-- `MenuItem.find` (src/bot/main.py lines 40-47): empty path returns the
node itself; otherwise descend into the first child whose `id` matches the
head of the path. -/
def MenuItem.find : MenuItem → List String → Option MenuItem
  | m, [] => some m
  | m, h :: t =>
    match m.children.find? (fun c => c.id == h) with
    | some c => c.find t
    | none => none

/-- `MenuItem.is_leaf` (src/bot/main.py lines 49-50). -/
def MenuItem.leafP (m : MenuItem) : Bool :=
  m.children.isEmpty

/-- `MenuLoader.find_by_path` (src/bot/main.py lines 80-86): empty path is
"not found"; otherwise match the first identifier against the root items
(first match wins) and descend with `MenuItem.find`. -/
def findByPath (roots : List MenuItem) : List String → Option MenuItem
  | [] => none
  | h :: t =>
    match roots.find? (fun r => r.id == h) with
    | some r => r.find t
    | none => none

/-- The loop of `MenuItem.breadcrumb` (src/bot/main.py lines 57-62),
driven by the reversed remaining path so that shortening the path by its
last identifier (`path = path[:-1]`) is structural recursion.  Arguments:
current `node`, the reversed remaining path, and the collected parts. -/
def bcLoop (self : MenuItem) : Option MenuItem → List String → List String → List String
  | none, _, parts => parts
  | some n, [], parts => parts ++ [pyStrip n.text]
  | some n, _ :: rp, parts =>
    bcLoop self (if rp.isEmpty then none else self.find rp.reverse) rp
      (parts ++ [pyStrip n.text])

/-- `MenuItem.breadcrumb` (src/bot/main.py lines 52-63): resolve the path
relative to `self`, walk back towards the root collecting stripped display
texts, and join them root-to-leaf with `" / "`. -/
def MenuItem.breadcrumb (self : MenuItem) (path : List String) : String :=
  pyJoin " / " (bcLoop self (self.find path) path.reverse []).reverse

/-! ### Walk semantics (from the spec's notion of a valid path) -/

/-- All nodes reachable from `m` by walking the given identifier sequence
through children (spec: "walking ... through any sequence of child
identifiers").  Each step may pick any child whose id matches. -/
def walkEnds : MenuItem → List String → List MenuItem
  | m, [] => [m]
  | m, h :: t =>
    (m.children.filter (fun c => c.id == h)).flatMap fun c => walkEnds c t

/-- All nodes reachable by walking a path from some root of the forest:
the first identifier names the root itself. -/
def forestWalkEnds (roots : List MenuItem) : List String → List MenuItem
  | [] => []
  | h :: t =>
    (roots.filter (fun r => r.id == h)).flatMap fun r => walkEnds r t

/-- No duplicates in a list of strings. -/
def nodupStr : List String → Bool
  | [] => true
  | s :: ss => !(ss.contains s) && nodupStr ss

mutual
/-- The spec's data-model invariant "identifiers unique among siblings",
at a node: the children's ids are pairwise distinct, recursively. -/
def uidsItem : MenuItem → Bool
  | .mk _ _ _ cs => nodupStr (cs.map MenuItem.id) && uidsList cs

def uidsList : List MenuItem → Bool
  | [] => true
  | c :: cs => uidsItem c && uidsList cs
end

/-- The sibling-uniqueness invariant for a whole forest: root ids pairwise
distinct and every node's children ids pairwise distinct. -/
def uidsForest (roots : List MenuItem) : Bool :=
  nodupStr (roots.map MenuItem.id) && uidsList roots

/-! ### Keyboard factory (src/bot/main.py lines 125-150) -/

/-- `BACK_ROOT` (src/bot/main.py line 125): the callback token that
returns to the top-level menu. -/
def BACK_ROOT : String := "ROOT"

/-- One inline keyboard button: either an action button carrying a
callback token, or a URL link button. -/
inductive Button where
  | action (label : String) (token : String)
  | link (label : String) (url : String)
deriving DecidableEq

/-- Python truthiness of the optional channel string
(`if ... self.channel:`): set and non-empty. -/
def chTruthy : Option String → Bool
  | some c => !(c == "")
  | none => false

/-- The link URL built at src/bot/main.py line 142:
`https://t.me/` followed by the channel with leading `@` stripped. -/
def channelUrl (ch : Option String) : String :=
  "https://t.me/" ++ String.mk ((ch.getD "").toList.dropWhile (fun c => c == '@'))

/-- `KeyboardFactory.build` (src/bot/main.py lines 131-150): one action
button per item (token = parent path extended by the item id, joined by
`":"`); on the root view with a truthy channel a link button is appended;
on any non-root view a back button is appended whose token is the parent
path shortened by one (or `BACK_ROOT` when that is empty). -/
def build (ch : Option String) (parentPath : List String) (items : List MenuItem) :
    List Button :=
  (items.map fun itm => Button.action itm.text (pyJoin ":" (parentPath ++ [itm.id])))
    ++ (if parentPath.isEmpty && chTruthy ch then
          [Button.link "🔔 Notify Me" (channelUrl ch)]
        else [])
    ++ (if parentPath.isEmpty then []
        else
          [Button.action "⬅️ Back"
            (if parentPath.dropLast.isEmpty then BACK_ROOT
             else pyJoin ":" parentPath.dropLast)])

/-! ### Orchestrator (src/bot/main.py lines 156-237) -/

/-- The observable outcome of handling a callback: either the message
markup is replaced (`edit_message_reply_markup`) or the text and markup
are replaced (`edit_message_text`). -/
inductive Response where
  | editMarkup (kb : List Button)
  | editText (text : String) (kb : List Button)
deriving DecidableEq

/-- `TerminBot._show_menu` (src/bot/main.py lines 214-221): resolve the
path when non-empty, list the resolved node's children (or the roots when
nothing resolved), and edit only the keyboard. -/
def showMenu (roots : List MenuItem) (ch : Option String) (path : List String) :
    Response :=
  let node := if path.isEmpty then none else findByPath roots path
  let items := match node with
    | some n => n.children
    | none => roots
  .editMarkup (build ch path items)

/-- `on_callback` (src/bot/main.py lines 176-202).  `data` is the raw
callback token (`call.data or BACK_ROOT` maps a falsy token to the
sentinel).  The sentinel shows the root menu; an unresolvable path resets
to the root menu; a leaf with a truthy answer shows breadcrumb heading
plus answer with a back-only keyboard; otherwise the submenu is shown. -/
def onCallback (roots : List MenuItem) (ch : Option String) (data0 : String) :
    Response :=
  let data := if data0 == "" then BACK_ROOT else data0
  if data == BACK_ROOT then showMenu roots ch []
  else
    let path := pySplitColon data
    match findByPath roots path with
    | none => showMenu roots ch []
    | some item =>
      if item.leafP && (match item.answer with | some a => !(a == "") | none => false) then
        .editText ("<b>" ++ item.breadcrumb path ++ "</b>\n\n" ++
            (item.answer.getD ""))
          (build ch path [])
      else showMenu roots ch path

/-- `on_start` (src/bot/main.py lines 166-173): the welcome text and the
root keyboard sent for `/start` and `/help`. -/
def onStart (roots : List MenuItem) (ch : Option String) : String × List Button :=
  ("<b>Welcome to TerminJetzt Heilbronn!</b>\n" ++
    "Use the buttons below to explore appointment info, docs, and FAQs.",
   build ch [] roots)

/-- The keyboard carried by a `Response`. -/
def Response.kb : Response → List Button
  | .editMarkup kb => kb
  | .editText _ kb => kb

/-! ### Free-text search (src/bot/main.py lines 204-237) -/

mutual
/-- `TerminBot._iterate_leaves` (src/bot/main.py lines 232-237): the
leaves of a subtree in depth-first order. -/
def leaves : MenuItem → List MenuItem
  | .mk i t a cs => if cs.isEmpty then [.mk i t a cs] else leavesList cs

def leavesList : List MenuItem → List MenuItem
  | [] => []
  | c :: cs => leaves c ++ leavesList cs
end

/-- The words of the lowercased query (`query.lower().split()`,
src/bot/main.py line 225). -/
def queryWords (q : String) : List String :=
  pySplitWs (pyLower q)

/-- `TerminBot._search` (src/bot/main.py lines 223-230): scan the roots
and, inside each root, its leaves in depth-first order; return the first
leaf answer that is truthy and contains some query word (case-insensitive
substring test); `none` when nothing matches.  (The `lru_cache` memoization
does not change the computed value and is not modelled.) -/
def searchAnswers (roots : List MenuItem) (query : String) : Option String :=
  let qw := queryWords query
  roots.findSome? fun root =>
    (leaves root).findSome? fun leaf =>
      match leaf.answer with
      | some a => if !(a == "") && qw.any (fun w => pyIn w (pyLower a)) then some a else none
      | none => none

/-- The generic fallback reply (src/bot/main.py line 210). -/
def fallbackMsg : String := "Sorry, I didn't get that. Please use the menu."

/-- `on_fallback` (src/bot/main.py lines 204-210): reply with the search
result when truthy, and with the generic fallback message otherwise. -/
def onFallbackReply (roots : List MenuItem) (msgText : String) : String :=
  match searchAnswers roots msgText with
  | some a => if a == "" then fallbackMsg else a
  | none => fallbackMsg

/-- The claim's description of the free-text behaviour: collect all
leaves of the forest depth-first in root order, keep those whose answer
text contains some word of the message (case-insensitively), and reply
with the first such leaf's answer, or with the fallback message. -/
def claimReply (roots : List MenuItem) (msgText : String) : String :=
  let qw := queryWords msgText
  match ((roots.flatMap leaves).filter fun leaf =>
      match leaf.answer with
      | some a => !(a == "") && qw.any (fun w => pyIn w (pyLower a))
      | none => false).head? with
  | some leaf => leaf.answer.getD ""
  | none => fallbackMsg

/-! ### YAML loader (src/bot/main.py lines 90-119) -/

/-- A parsed YAML value as seen by the loader: strings, null, sequences
and mappings (the shapes the menu configuration uses). -/
inductive Yaml where
  | str (s : String)
  | null
  | list (xs : List Yaml)
  | dict (kvs : List (String × Yaml))

def Yaml.isDictY : Yaml → Bool
  | .dict _ => true
  | _ => false

/-- Mapping lookup (`raw.get(k)` / `k in raw` on a parsed mapping). -/
def getKey : List (String × Yaml) → String → Option Yaml
  | [], _ => none
  | (k, v) :: rest, key => if k == key then some v else getKey rest key

/-- The Python exceptions the loader can raise (modelled as error
results): `FileNotFoundError` from `open`, `AttributeError` from calling
`.get` on a non-mapping, `TypeError` from iterating a non-iterable, and
the typed-model boundary for a present `id`/`text`/`answer` field whose
value is not a string (the dataclass annotates these fields as `str`). -/
inductive LoadErr where
  | fileNotFound
  | attrError
  | typeError
  | fieldNotStr
deriving DecidableEq

/-- The fallback loop of `MenuLoader._load` (src/bot/main.py lines
102-107): the first mapping value, in document order, holding a list
under `menu`; empty when none does. -/
def fallbackScan : List (String × Yaml) → List Yaml
  | [] => []
  | (_, v) :: rest =>
    match v with
    | .dict vkvs =>
      match getKey vkvs "menu" with
      | some (.list xs) => xs
      | _ => fallbackScan rest
    | _ => fallbackScan rest

/-- The entry-selection part of `MenuLoader._load` (src/bot/main.py lines
97-107), returning the raw `entries` value: a top-level `menu` list wins;
otherwise a present language key commits to `raw[lang].get("menu", [])`
(an `AttributeError` when `raw[lang]` is not a mapping); otherwise the
fallback scan over the mapping values. -/
def selectEntries (lang : String) : Yaml → Except LoadErr Yaml
  | .dict kvs =>
    match getKey kvs "menu" with
    | some (.list xs) => .ok (.list xs)
    | _ =>
      match getKey kvs lang with
      | some (.dict lkvs) =>
        .ok (match getKey lkvs "menu" with
          | some v => v
          | none => .list [])
      | some _ => .error .attrError
      | none => .ok (.list (fallbackScan kvs))
  | _ => .ok (.list [])

/-- Iterating the selected `entries` value (`for node in entries`):
lists iterate their elements, strings iterate their characters (as
one-character strings), mappings iterate their keys, and `None` raises a
`TypeError`. -/
def toIter : Yaml → Except LoadErr (List Yaml)
  | .list xs => .ok xs
  | .str s => .ok (s.toList.map fun c => Yaml.str (String.mk [c]))
  | .dict kvs => .ok (kvs.map fun kv => Yaml.str kv.1)
  | .null => .error .typeError

/-- Reading a present-or-absent `id`/`text` field
(`node.get("id", "")`): absent defaults to `""`.  A present non-string
value is stored untyped by Python into a `str`-annotated dataclass field
and is outside this typed model; it is mapped to an error. -/
def strFieldD : Option Yaml → Except LoadErr String
  | none => .ok ""
  | some (.str s) => .ok s
  | some _ => .error .fieldNotStr

/-- Reading the optional `answer` field (`node.get("answer")`): absent or
YAML `null` is `None`; a present non-string value is outside the typed
model (the dataclass annotates `answer: Optional[str]`). -/
def ansField : Option Yaml → Except LoadErr (Option String)
  | none => .ok none
  | some (.str s) => .ok (some s)
  | some .null => .ok none
  | some _ => .error .fieldNotStr

mutual
/-- `MenuLoader._parse_item` (src/bot/main.py lines 111-119): a mapping
node yields a `MenuItem` whose children come from the dict-valued entries
of its `children` field; calling `.get` on a non-mapping raises an
`AttributeError`.  Children are built before the scalar fields are read,
as in the source. -/
def parseItem : Yaml → Except LoadErr MenuItem
  | .dict kvs => do
    let cs ← parseChildren (getKey kvs "children")
    let i ← strFieldD (getKey kvs "id")
    let t ← strFieldD (getKey kvs "text")
    let a ← ansField (getKey kvs "answer")
    .ok (MenuItem.mk i t a cs)
  | _ => .error .attrError
termination_by y => sizeOf y
decreasing_by
  simp_wf
  have hle : ∀ (kvs : List (String × Yaml)) (key : String),
      sizeOf (getKey kvs key) ≤ sizeOf kvs := by
    intro kvs key
    induction kvs with
    | nil => simp [getKey]
    | cons kv rest ih =>
      obtain ⟨k, v⟩ := kv
      simp only [getKey]
      split
      · simp; omega
      · simp; omega
  rename_i kvs0
  have := hle kvs0 "children"
  omega

/-- The `children` comprehension (src/bot/main.py line 112): absent means
`[]`; a list keeps only its mapping elements; iterating a string or a
mapping yields no mapping elements; iterating `None` raises `TypeError`. -/
def parseChildren : Option Yaml → Except LoadErr (List MenuItem)
  | none => .ok []
  | some (.list xs) => parseFiltered xs
  | some (.str _) => .ok []
  | some (.dict _) => .ok []
  | some .null => .error .typeError
termination_by o => sizeOf o
decreasing_by
  simp_wf
  omega

/-- Parse the mapping elements of a children list, in order. -/
def parseFiltered : List Yaml → Except LoadErr (List MenuItem)
  | [] => .ok []
  | y :: ys =>
    if y.isDictY then do
      let m ← parseItem y
      let ms ← parseFiltered ys
      .ok (m :: ms)
    else parseFiltered ys
termination_by l => sizeOf l
decreasing_by
  all_goals simp_wf <;> omega
end

/-- The top-level comprehension of `MenuLoader._load` (src/bot/main.py
line 109): every selected entry is parsed, with no dict filtering. -/
def parseItems : List Yaml → Except LoadErr (List MenuItem)
  | [] => .ok []
  | y :: ys => do
    let m ← parseItem y
    let ms ← parseItems ys
    .ok (m :: ms)

/-- `MenuLoader._load` on an already-parsed document: select the entries
value, iterate it, and parse every entry. -/
def loadDoc (lang : String) (doc : Yaml) : Except LoadErr (List MenuItem) := do
  let entriesVal ← selectEntries lang doc
  let ys ← toIter entriesVal
  parseItems ys

/-- `MenuLoader._load` including the configuration source: `open` raises
when the file is missing or unreadable (`none`); an empty or null
document parses to YAML null. -/
def loadSource (lang : String) : Option Yaml → Except LoadErr (List MenuItem)
  | none => .error .fileNotFound
  | some doc => loadDoc lang doc

/-- The amended selection policy, written as a priority cascade:
(a) a top-level `menu` list; otherwise, when the preferred-language key
is present, (b) commits: a mapping value selects the value under its
`menu` key (empty list when absent) and a non-mapping value is an error;
(c) the first mapping value holding a `menu` list is consulted only when
the preferred-language key is absent; empty selection otherwise. -/
def amendedSelect (lang : String) (doc : Yaml) : Except LoadErr Yaml :=
  match doc with
  | .dict kvs =>
    match getKey kvs "menu" with
    | some (.list xs) => .ok (.list xs)
    | _ =>
      match getKey kvs lang with
      | none => .ok (.list (fallbackScan kvs))
      | some (.dict lkvs) =>
        .ok (match getKey lkvs "menu" with
          | some v => v
          | none => .list [])
      | some _ => .error .attrError
  | _ => .ok (.list [])

/-! ### Sample data used by witnesses and counterexamples -/

/-- The leaf node of the spec's scenario config
`[{id:"a",text:"A",children:[{id:"b",text:"B",answer:"ans"}]}]`. -/
def leafB : MenuItem := .mk "b" "B" (some "ans") []

/-- The spec's scenario forest: one root `a`/`A` with one child `b`. -/
def sampleForest : List MenuItem := [.mk "a" "A" none [leafB]]

/-- A forest whose only root carries the sentinel string as its id. -/
def rootIdForest : List MenuItem := [.mk "ROOT" "R" (some "hidden") []]

/-! ### Helper lemmas -/

theorem filter_id_nil_of_not_contains (cs : List MenuItem) (s : String)
    (h : ((cs.map MenuItem.id).contains s) = false) :
    cs.filter (fun c => c.id == s) = [] := by
  induction cs with
  | nil => rfl
  | cons c cs ih =>
    simp only [List.map_cons, List.contains_cons, Bool.or_eq_false_iff] at h
    obtain ⟨h1, h2⟩ := h
    have hne : ¬((c.id == s) = true) := by
      simp only [beq_eq_false_iff_ne] at h1
      simp only [beq_iff_eq]
      exact fun he => h1 he.symm
    rw [@List.filter_cons_of_neg _ (fun x => x.id == s) c cs hne, ih h2]

theorem nodupStr_cons_iff (s : String) (ss : List String) :
    nodupStr (s :: ss) = true ↔ ss.contains s = false ∧ nodupStr ss = true := by
  simp [nodupStr]

theorem uidsList_cons_iff (c : MenuItem) (cs : List MenuItem) :
    uidsList (c :: cs) = true ↔ uidsItem c = true ∧ uidsList cs = true := by
  simp [uidsList]

/-- Scanning a sibling list for the first id match: under sibling
uniqueness, the node the scan descends into is the only sibling any walk
can step through, so a walk endpoint is what the scan-based descent
returns.  The descent below the match is supplied as `IH`. -/
theorem scanSiblings (hd : String) (tl : List String)
    (IH : ∀ m n, uidsItem m = true → n ∈ walkEnds m tl → m.find tl = some n) :
    ∀ (cs : List MenuItem) (n : MenuItem),
      nodupStr (cs.map MenuItem.id) = true → uidsList cs = true →
      n ∈ (cs.filter (fun c => c.id == hd)).flatMap (fun c => walkEnds c tl) →
      (match cs.find? (fun c => c.id == hd) with
       | some c => c.find tl
       | none => none) = some n := by
  intro cs
  induction cs with
  | nil => intro n _ _ hn; simp at hn
  | cons c cs ih =>
    intro n hnd hul hn
    rw [List.map_cons, nodupStr_cons_iff] at hnd
    obtain ⟨hc1, hc2⟩ := hnd
    rw [uidsList_cons_iff] at hul
    obtain ⟨hu1, hu2⟩ := hul
    cases hq : (c.id == hd) with
    | true =>
      rw [@List.find?_cons_of_pos _ (fun x => x.id == hd) c cs hq]
      have hid : c.id = hd := eq_of_beq hq
      have hrest : cs.filter (fun x => x.id == hd) = [] := by
        apply filter_id_nil_of_not_contains
        rw [← hid]; exact hc1
      rw [@List.filter_cons_of_pos _ (fun x => x.id == hd) c cs hq,
        List.flatMap_cons, hrest] at hn
      simp only [List.flatMap_nil, List.append_nil] at hn
      exact IH c n hu1 hn
    | false =>
      rw [@List.find?_cons_of_neg _ (fun x => x.id == hd) c cs (by simp [hq])]
      rw [@List.filter_cons_of_neg _ (fun x => x.id == hd) c cs (by simp [hq])] at hn
      exact ih n hc2 hu2 hn

/-- Under the sibling-uniqueness invariant, `MenuItem.find` returns
exactly the endpoint of any walk through matching child identifiers. -/
theorem find_eq_of_mem_walkEnds :
    ∀ (t : List String) (m n : MenuItem), uidsItem m = true →
      n ∈ walkEnds m t → m.find t = some n := by
  intro t
  induction t with
  | nil =>
    intro m n _ hn
    simp only [walkEnds, List.mem_singleton] at hn
    rw [hn]; rfl
  | cons hd tl ih =>
    intro m n hu hn
    obtain ⟨i, tx, a, cs⟩ := m
    rw [uidsItem] at hu
    rw [Bool.and_eq_true] at hu
    obtain ⟨hnd, hul⟩ := hu
    have := scanSiblings hd tl ih cs n hnd hul
      (by simpa [walkEnds, MenuItem.children] using hn)
    simpa [MenuItem.find, MenuItem.children] using this

/-- `MenuItem.find` only returns walk endpoints (no uniqueness needed). -/
theorem mem_walkEnds_of_find :
    ∀ (t : List String) (m n : MenuItem), m.find t = some n →
      n ∈ walkEnds m t := by
  intro t
  induction t with
  | nil =>
    intro m n h
    simp only [MenuItem.find, Option.some.injEq] at h
    simp [walkEnds, h]
  | cons hd tl ih =>
    intro m n h
    simp only [MenuItem.find] at h
    cases e : m.children.find? (fun c => c.id == hd) with
    | none => rw [e] at h; cases h
    | some c =>
      rw [e] at h
      have hc : c ∈ m.children := List.mem_of_find?_eq_some e
      have hq : (c.id == hd) = true := by simpa using List.find?_some e
      have hmem : n ∈ walkEnds c tl := ih c n h
      simp only [walkEnds, List.mem_flatMap]
      exact ⟨c, List.mem_filter.mpr ⟨hc, hq⟩, hmem⟩

/-- Forest version of `mem_walkEnds_of_find`. -/
theorem mem_forestWalkEnds_of_findByPath (roots : List MenuItem)
    (p : List String) (n : MenuItem) (h : findByPath roots p = some n) :
    n ∈ forestWalkEnds roots p := by
  cases p with
  | nil => cases h
  | cons hd tl =>
    simp only [findByPath] at h
    cases e : roots.find? (fun r => r.id == hd) with
    | none => rw [e] at h; cases h
    | some r =>
      rw [e] at h
      have hr : r ∈ roots := List.mem_of_find?_eq_some e
      have hq : (r.id == hd) = true := by simpa using List.find?_some e
      simp only [forestWalkEnds, List.mem_flatMap]
      exact ⟨r, List.mem_filter.mpr ⟨hr, hq⟩, mem_walkEnds_of_find tl r n h⟩

/-! ### Claim theorems -/

/-- C1: for every forest satisfying the data model's sibling-uniqueness
invariant and every valid path obtained by walking from a root through a
sequence of child identifiers, `MenuLoader.find_by_path` (first match
wins at each level) returns exactly the node reached by that walk. -/
theorem resolve_returns_walked_node (roots : List MenuItem)
    (path : List String) (n : MenuItem) (hu : uidsForest roots = true)
    (hn : n ∈ forestWalkEnds roots path) :
    findByPath roots path = some n := by
  cases path with
  | nil => simp [forestWalkEnds] at hn
  | cons hd tl =>
    rw [uidsForest, Bool.and_eq_true] at hu
    obtain ⟨hnd, hul⟩ := hu
    have := scanSiblings hd tl (find_eq_of_mem_walkEnds tl) roots n hnd hul
      (by simpa [forestWalkEnds] using hn)
    simpa [findByPath] using this

/-- Witness for C1 on the spec's scenario forest: the walk `a / b`
reaches `leafB` and resolution returns exactly it. -/
theorem resolve_returns_walked_node_check :
    uidsForest sampleForest = true ∧
    leafB ∈ forestWalkEnds sampleForest ["a", "b"] ∧
    findByPath sampleForest ["a", "b"] = some leafB := by
  refine ⟨rfl, List.Mem.head _, ?_⟩
  exact resolve_returns_walked_node sampleForest ["a", "b"] leafB rfl
    (List.Mem.head _)

/-- C2 (code bug): `breadcrumb` is invoked by `on_callback` on the
*resolved* node, which re-resolves the full path inside that node's own
subtree; the resolution fails there, so the rendered heading is empty
instead of the `"A / B"` chain of display texts.  On the spec's scenario
config, pressing `a:b` therefore shows the heading `<b></b>` rather than
`<b>A / B</b>`. -/
theorem breadcrumb_on_resolved_node_is_empty :
    findByPath sampleForest ["a", "b"] = some leafB ∧
    leafB.breadcrumb ["a", "b"] = "" ∧
    onCallback sampleForest none "a:b" =
      Response.editText ("<b></b>" ++ "\n\n" ++ "ans")
        (build none ["a", "b"] []) ∧
    (MenuItem.mk "a" "A" none [leafB]).breadcrumb ["b"] = "B" := by
  exact ⟨rfl, rfl, rfl, rfl⟩

/-- C3: a token whose path admits no walk through the forest (some
identifier is unknown at its depth) resolves to `none`, and the
orchestrator's response is exactly the response to the root sentinel:
the root keyboard, with no error surfaced. -/
theorem unknown_token_resets_to_root (roots : List MenuItem)
    (ch : Option String) (tkn : String)
    (h : forestWalkEnds roots (pySplitColon tkn) = []) :
    findByPath roots (pySplitColon tkn) = none ∧
    onCallback roots ch tkn = onCallback roots ch BACK_ROOT ∧
    onCallback roots ch BACK_ROOT = .editMarkup (build ch [] roots) := by
  have h1 : findByPath roots (pySplitColon tkn) = none := by
    cases e : findByPath roots (pySplitColon tkn) with
    | none => rfl
    | some n =>
      have := mem_forestWalkEnds_of_findByPath roots (pySplitColon tkn) n e
      rw [h] at this
      cases this
  refine ⟨h1, ?_, rfl⟩
  by_cases he : tkn = ""
  · subst he; rfl
  · have hne : (tkn == "") = false := by simp [he]
    by_cases hr : tkn = BACK_ROOT
    · subst hr; rfl
    · have hnr : (tkn == BACK_ROOT) = false := by simp [hr]
      simp only [onCallback, hne, hnr, Bool.false_eq_true, if_false, h1]
      rfl

/-- Witness for C3: the token `z` is unknown in the scenario forest; the
response equals the sentinel response, i.e. the root keyboard. -/
theorem unknown_token_resets_to_root_check :
    forestWalkEnds sampleForest (pySplitColon "z") = [] ∧
    (findByPath sampleForest (pySplitColon "z") = none ∧
     onCallback sampleForest none "z" = onCallback sampleForest none BACK_ROOT ∧
     onCallback sampleForest none BACK_ROOT =
       .editMarkup (build none [] sampleForest)) := by
  exact ⟨rfl, unknown_token_resets_to_root sampleForest none "z" rfl⟩

/-- C4: for a root view (empty path) with a configured (non-empty)
channel, the keyboard is exactly one action button per item, in order,
labeled with the item's text and carrying the item's id as token,
followed by the link button last — n + 1 buttons, no back button. -/
theorem root_keyboard_with_channel (items : List MenuItem) (c : String)
    (hc : c ≠ "") :
    build (some c) [] items =
      items.map (fun itm => Button.action itm.text itm.id) ++
        [Button.link "🔔 Notify Me" (channelUrl (some c))] ∧
    (build (some c) [] items).length = items.length + 1 := by
  have hcb : (c == "") = false := by simp [hc]
  constructor
  · simp [build, chTruthy, hcb, pyJoin]
  · simp [build, chTruthy, hcb]

/-- Witness for C4 at the scenario forest and channel `chan`. -/
theorem root_keyboard_with_channel_check :
    ("chan" : String) ≠ "" ∧
    (build (some "chan") [] sampleForest =
      sampleForest.map (fun itm => Button.action itm.text itm.id) ++
        [Button.link "🔔 Notify Me" (channelUrl (some "chan"))] ∧
     (build (some "chan") [] sampleForest).length = sampleForest.length + 1) := by
  exact ⟨by decide, root_keyboard_with_channel sampleForest "chan" (by decide)⟩

/-- C5: for a non-empty path (any non-root view, including leaf/answer
views with zero items), the keyboard is exactly one action button per
item — token = path extended by the item id, joined by `":"` — followed
by the back button last, whose token is the path with its last identifier
removed, or the root sentinel when that is empty: n + 1 buttons. -/
theorem nonroot_keyboard_back_last (ch : Option String) (pp : List String)
    (hp : pp ≠ []) (items : List MenuItem) :
    build ch pp items =
      items.map (fun itm => Button.action itm.text (pyJoin ":" (pp ++ [itm.id]))) ++
        [Button.action "⬅️ Back"
          (if pp.dropLast.isEmpty then BACK_ROOT else pyJoin ":" pp.dropLast)] ∧
    (build ch pp items).length = items.length + 1 := by
  cases pp with
  | nil => exact absurd rfl hp
  | cons h t =>
    constructor
    · simp [build]
    · simp [build]

/-- Witness for C5 at the leaf view `a:b` with no items. -/
theorem nonroot_keyboard_back_last_check :
    (["a", "b"] : List String) ≠ [] ∧
    (build none ["a", "b"] [] =
      ([] : List MenuItem).map
        (fun itm => Button.action itm.text (pyJoin ":" (["a", "b"] ++ [itm.id]))) ++
        [Button.action "⬅️ Back"
          (if (["a", "b"] : List String).dropLast.isEmpty then BACK_ROOT
           else pyJoin ":" (["a", "b"] : List String).dropLast)] ∧
     (build none ["a", "b"] []).length = ([] : List MenuItem).length + 1) := by
  exact ⟨by decide, nonroot_keyboard_back_last none ["a", "b"] (by decide) []⟩

/-- C9: pressing the root sentinel token or an empty token yields exactly
the keyboard sent by the initial start/help command. -/
theorem sentinel_keyboard_eq_start_keyboard (roots : List MenuItem)
    (ch : Option String) :
    (onCallback roots ch BACK_ROOT).kb = (onStart roots ch).2 ∧
    (onCallback roots ch "").kb = (onStart roots ch).2 := by
  exact ⟨rfl, rfl⟩

/-- C10: when a root-level node's own identifier equals the sentinel
string `ROOT`, its action button carries exactly the token `ROOT`, the
path `["ROOT"]` does resolve to a node, and yet pressing the button shows
the root menu (the sentinel check precedes path resolution), so the
node's own view is not what is displayed. -/
theorem sentinel_id_node_shadowed (roots : List MenuItem) (ch : Option String)
    (node : MenuItem) (h1 : node ∈ roots) (h2 : node.id = "ROOT") :
    Button.action node.text "ROOT" ∈ build ch [] roots ∧
    (∃ m, findByPath roots ["ROOT"] = some m) ∧
    onCallback roots ch "ROOT" = Response.editMarkup (build ch [] roots) := by
  refine ⟨?_, ?_, rfl⟩
  · simp only [build, List.mem_append]
    left; left
    refine List.mem_map.mpr ⟨node, h1, ?_⟩
    rw [show pyJoin ":" (([] : List String) ++ [node.id]) = node.id from rfl, h2]
  · cases e : roots.find? (fun r => r.id == "ROOT") with
    | none =>
      exfalso
      have := List.find?_eq_none.mp e node h1
      simp [h2] at this
    | some r =>
      refine ⟨r, ?_⟩
      simp [findByPath, e, MenuItem.find]

/-- Witness for C10 on a forest whose only root has id `ROOT` and an
answer: the button token is `ROOT` and pressing it shows the root menu. -/
theorem sentinel_id_node_shadowed_check :
    (MenuItem.mk "ROOT" "R" (some "hidden") []) ∈ rootIdForest ∧
    (MenuItem.mk "ROOT" "R" (some "hidden") []).id = "ROOT" ∧
    (Button.action (MenuItem.mk "ROOT" "R" (some "hidden") []).text "ROOT" ∈
        build none [] rootIdForest ∧
     (∃ m, findByPath rootIdForest ["ROOT"] = some m) ∧
     onCallback rootIdForest none "ROOT" =
       Response.editMarkup (build none [] rootIdForest)) := by
  exact ⟨List.Mem.head _, rfl,
    sentinel_id_node_shadowed rootIdForest none _ (List.Mem.head _) rfl⟩

/-- C6 counterexample: on the document `{en: "hello"}` with preferred
language `en`, the claims' selection policy yields a forest (empty at
worst), but the loader commits to the language branch and calling
`.get` on the non-mapping value raises an `AttributeError`: no forest is
produced at all. -/
theorem lang_block_nondict_raises :
    selectEntries "en" (Yaml.dict [("en", Yaml.str "hello")]) =
      Except.error LoadErr.attrError ∧
    loadDoc "en" (Yaml.dict [("en", Yaml.str "hello")]) =
      Except.error LoadErr.attrError := by
  exact ⟨rfl, rfl⟩

/-- C6 (amended): the selection policy with the language branch as the
code implements it — (a) a top-level `menu` list; otherwise, when the
preferred-language key is present, the loader commits to it: a mapping
value selects whatever sits under its `menu` key (empty when absent),
and a non-mapping value raises an error; (c) the first block containing
a `menu` list is consulted only when the preferred-language key is
absent; otherwise the selection is empty. -/
theorem select_entries_follows_policy (lang : String) (doc : Yaml) :
    selectEntries lang doc = amendedSelect lang doc := by
  cases doc with
  | dict kvs =>
    simp only [selectEntries, amendedSelect]
    cases hm : getKey kvs "menu" with
    | none =>
      cases hl : getKey kvs lang with
      | none => rfl
      | some w => cases w <;> rfl
    | some v =>
      cases v with
      | list xs => rfl
      | str s =>
        cases hl : getKey kvs lang with
        | none => rfl
        | some w => cases w <;> rfl
      | null =>
        cases hl : getKey kvs lang with
        | none => rfl
        | some w => cases w <;> rfl
      | dict d =>
        cases hl : getKey kvs lang with
        | none => rfl
        | some w => cases w <;> rfl
  | str s => rfl
  | null => rfl
  | list xs => rfl

/-- C7 counterexample: a missing or unreadable configuration source makes
`open` raise rather than yielding an empty forest, and a non-mapping
entry inside a selected `menu` list makes `_parse_item` raise
(`None.get`), rather than defaulting. -/
theorem loader_raises_on_missing_or_malformed :
    loadSource "en" none = Except.error LoadErr.fileNotFound ∧
    loadDoc "en" (Yaml.dict [("menu", Yaml.list [Yaml.null])]) =
      Except.error LoadErr.attrError := by
  constructor
  · rfl
  · show parseItems [Yaml.null] = Except.error LoadErr.attrError
    have h : parseItem Yaml.null = Except.error LoadErr.attrError := by
      simp [parseItem]
    simp only [parseItems, h]
    rfl

/-- C7 (amended): for mapping entries whose fields are readable —
children parse, and `id`/`text`/`answer` are absent or well-typed —
`_parse_item` does not raise, and a missing `id` or `text` defaults to
the empty string. -/
theorem dict_entry_fields_default (kvs : List (String × Yaml))
    (cs : List MenuItem) (i t : String) (a : Option String)
    (hc : parseChildren (getKey kvs "children") = .ok cs)
    (hi : strFieldD (getKey kvs "id") = .ok i)
    (ht : strFieldD (getKey kvs "text") = .ok t)
    (ha : ansField (getKey kvs "answer") = .ok a) :
    parseItem (.dict kvs) = .ok (MenuItem.mk i t a cs) ∧
    (getKey kvs "id" = none → i = "") ∧
    (getKey kvs "text" = none → t = "") := by
  refine ⟨?_, ?_, ?_⟩
  · rw [parseItem]
    rw [hc, hi, ht, ha]
    rfl
  · intro h
    rw [h] at hi
    cases hi
    rfl
  · intro h
    rw [h] at ht
    cases ht
    rfl

/-- Witness for C7 (amended) at the empty mapping entry `{}`: parsing
succeeds with empty id and text, no answer and no children. -/
theorem dict_entry_fields_default_check :
    parseChildren (getKey [] "children") = .ok [] ∧
    strFieldD (getKey [] "id") = .ok "" ∧
    strFieldD (getKey [] "text") = .ok "" ∧
    ansField (getKey [] "answer") = .ok none ∧
    (parseItem (.dict []) = .ok (MenuItem.mk "" "" none []) ∧
     (getKey [] "id" = none → "" = "") ∧
     (getKey [] "text" = none → "" = "")) := by
  refine ⟨by simp [parseChildren, getKey], rfl, rfl, rfl, ?_⟩
  exact dict_entry_fields_default [] [] "" "" none
    (by simp [parseChildren, getKey]) rfl rfl rfl

/-- `findSome?` distributes over append, keeping the first hit. -/
theorem findSome?_append_first (l1 l2 : List α) (f : α → Option β) :
    (l1 ++ l2).findSome? f =
      match l1.findSome? f with
      | some b => some b
      | none => l2.findSome? f := by
  induction l1 with
  | nil => rfl
  | cons a l ih =>
    simp only [List.cons_append, List.findSome?_cons]
    cases f a with
    | some b => rfl
    | none => exact ih

/-- The nested scan of `_search` (roots, then each root's leaves) equals
a single scan over the flattened depth-first leaf list. -/
theorem findSome?_nested_eq_flat (l : List α) (g : α → List β)
    (f : β → Option γ) :
    (l.findSome? fun a => (g a).findSome? f) = (l.flatMap g).findSome? f := by
  induction l with
  | nil => rfl
  | cons a l ih =>
    rw [List.flatMap_cons, findSome?_append_first, List.findSome?_cons]
    cases (g a).findSome? f with
    | some b => rfl
    | none => exact ih

/-- Scanning a leaf list for the first truthy answer containing a query
word equals filtering the matching leaves and taking the head. -/
theorem search_scan_eq_filter_head (qw : List String) :
    ∀ ls : List MenuItem,
      (match ls.findSome? (fun leaf =>
          match leaf.answer with
          | some a =>
            if !(a == "") && qw.any (fun w => pyIn w (pyLower a)) then some a
            else none
          | none => none) with
       | some a => if a == "" then fallbackMsg else a
       | none => fallbackMsg) =
      (match (ls.filter fun leaf =>
          match leaf.answer with
          | some a => !(a == "") && qw.any (fun w => pyIn w (pyLower a))
          | none => false).head? with
       | some leaf => leaf.answer.getD ""
       | none => fallbackMsg) := by
  intro ls
  induction ls with
  | nil => rfl
  | cons leaf ls ih =>
    rw [List.findSome?_cons]
    cases ha : leaf.answer with
    | none =>
      rw [List.filter_cons_of_neg (by simp [ha])]
      simpa [ha] using ih
    | some a =>
      cases hcond : (!(a == "") && qw.any (fun w => pyIn w (pyLower a))) with
      | true =>
        rw [List.filter_cons_of_pos (by simp [ha, hcond])]
        obtain ⟨h1, h2⟩ := Bool.and_eq_true .. |>.mp hcond
        have hna : ¬(a = "") := by simpa using h1
        have hex : ∃ x ∈ qw, pyIn x (pyLower a) = true := by simpa using h2
        simp [ha, hna, hex]
      | false =>
        rw [List.filter_cons_of_neg (by simp [ha, hcond])]
        simpa [ha, hcond] using ih

/-- C8: for every free-text message, the orchestrator's reply equals the
claim's description: scan every leaf of the forest depth-first in root
order, match the message's lowercased words as substrings of the leaf's
lowercased answer, reply with the first matching leaf's answer, and fall
back to the generic message when nothing matches. -/
theorem freetext_reply_first_match (roots : List MenuItem) (q : String) :
    onFallbackReply roots q = claimReply roots q := by
  show (match searchAnswers roots q with
        | some a => if a == "" then fallbackMsg else a
        | none => fallbackMsg) = claimReply roots q
  rw [show searchAnswers roots q =
      (roots.flatMap leaves).findSome? (fun leaf =>
        match leaf.answer with
        | some a =>
          if !(a == "") && (queryWords q).any (fun w => pyIn w (pyLower a)) then
            some a
          else none
        | none => none) from findSome?_nested_eq_flat roots leaves _]
  exact search_scan_eq_filter_head (queryWords q) (roots.flatMap leaves)
